import Mathlib

/-!
Verification of the A2A communication core of this repository:
the two envelope shapes (`a2a_protocol.py`, the legacy envelope, and
`a2a_standard_protocol.py`, the standard Message/Part envelope), the
message bus, the conversation threader, and the task/session context
manager (`a2a_task_context.py`).

Python's dynamically typed dictionaries and JSON-like payloads are
embedded as the inductive type `JVal` below.  Fields whose runtime
values are unconstrained in the source (payloads, metadata, part
contents, the standard message's `role`) are modelled as `JVal`;
fields that every constructor in the source populates with a `str`
(ids, timestamps, enum tags) are modelled as `String`/enums, and
`from_dict` extracts them with helpers that surface a `typeError`
where a non-string value would make later Python operations throw.
-/

set_option maxHeartbeats 1000000

/-- A Python/JSON value.  Arrays and objects are encoded as cons
chains (rather than nested `List`s) so that `DecidableEq` derives. -/
inductive JVal : Type where
  | null : JVal
  | jbool : Bool → JVal
  | jint : Int → JVal
  | jstr : String → JVal
  | jarrNil : JVal
  | jarrCons : JVal → JVal → JVal
  | jobjNil : JVal
  | jobjCons : String → JVal → JVal → JVal
deriving DecidableEq, Repr

/-- Build an object (Python dict) value from an association list. -/
def jobjOf : List (String × JVal) → JVal
  | [] => .jobjNil
  | (k, v) :: tl => .jobjCons k v (jobjOf tl)

/-- Build an array (Python list) value from a list. -/
def jarrOf : List JVal → JVal
  | [] => .jarrNil
  | v :: tl => .jarrCons v (jarrOf tl)

/-- Is this value a Python dict? -/
def JVal.isDict : JVal → Bool
  | .jobjNil => true
  | .jobjCons _ _ _ => true
  | _ => false

/-- First-match key lookup in an object chain (Python dict keys are
unique, so first match is the only match). -/
def JVal.lookup : JVal → String → Option JVal
  | .jobjCons k v tl, key => if k = key then some v else tl.lookup key
  | _, _ => none

/-- Python truthiness of a value (`bool(x)`); empty strings, empty
containers, zero and `None` are falsy. -/
def JVal.truthy : JVal → Bool
  | .null => false
  | .jbool b => b
  | .jint n => n != 0
  | .jstr s => s ≠ ""
  | .jarrNil => false
  | .jarrCons _ _ => true
  | .jobjNil => false
  | .jobjCons _ _ _ => true

/-- Exceptions raised by the deserializers (there is no `DecodeError`
class anywhere in the repository; these are the builtin Python
exceptions that actually occur). -/
inductive PyErr : Type where
  | keyError : String → PyErr
  | valueError : String → JVal → PyErr
  | typeError : String → PyErr
deriving DecidableEq, Repr

/-- `data[k]`: `KeyError` when the key is absent (model boundary: a
`typeError` when `data` is not a dict, where Python raises
`TypeError`/`AttributeError`). -/
def JVal.pyItem (d : JVal) (k : String) : Except PyErr JVal :=
  if d.isDict then
    match d.lookup k with
    | some v => .ok v
    | none => .error (.keyError k)
  else .error (.typeError "subscript on non-dict")

/-- `data.get(k, default)`. -/
def JVal.pyGet (d : JVal) (k : String) (default : JVal) : Except PyErr JVal :=
  if d.isDict then .ok ((d.lookup k).getD default)
  else .error (.typeError "get on non-dict")

/-- Extract a `str`-annotated field (model boundary: the source's
dataclass fields annotated `str`; a non-string here is outside the
behaviour any claim exercises). -/
def JVal.asStr : JVal → Except PyErr String
  | .jstr s => .ok s
  | _ => .error (.typeError "expected str")

/-- Extract an `Optional[str]`-annotated field. -/
def JVal.asOptStr : JVal → Except PyErr (Option String)
  | .null => .ok none
  | .jstr s => .ok (some s)
  | _ => .error (.typeError "expected Optional str")

/-- Python's substring test `needle in hay` for strings, on the
character lists. -/
def pyInStr (needle hay : String) : Bool :=
  go needle.toList hay.toList
where
  go (n : List Char) : List Char → Bool
    | [] => n = []
    | c :: rest => n.isPrefixOf (c :: rest) || go n rest

/-- Serialize `Option String` the way the legacy `to_dict` does
(`None` becomes JSON null). -/
def optStrVal : Option String → JVal
  | none => .null
  | some s => .jstr s

/-- First-match lookup in a String-keyed association list (the model
of a Python dict whose keys are unique). -/
def alookup {α : Type} : List (String × α) → String → Option α
  | [], _ => none
  | (k, v) :: tl, key => if k = key then some v else alookup tl key

/-- Python `d[k] = v`: overwrite the first entry with that key in
place, or append a new entry. -/
def pyDictSet {α : Type} : List (String × α) → String → α → List (String × α)
  | [], key, val => [(key, val)]
  | (k, v) :: tl, key, val =>
      if k = key then (key, val) :: tl else (k, v) :: pyDictSet tl key val

/-- Mutate the value stored under a key in place (first match only). -/
def pyDictUpdate {α : Type} : List (String × α) → String → (α → α) →
    List (String × α)
  | [], _, _ => []
  | (k, v) :: tl, key, f =>
      if k = key then (k, f v) :: tl else (k, v) :: pyDictUpdate tl key f

-- ===========================================================================
-- Legacy envelope (src/a2a_protocol.py)
-- ===========================================================================

namespace Legacy

/-- `MessageType` enum of `a2a_protocol.py`. -/
inductive MessageType : Type where
  | request | response | notification | error
deriving DecidableEq, Repr

def MessageType.value : MessageType → String
  | .request => "request"
  | .response => "response"
  | .notification => "notification"
  | .error => "error"

/-- Python `MessageType(x)` enum construction: `ValueError` when `x`
is not one of the enum's values. -/
def MessageType.fromValue (v : JVal) : Except PyErr MessageType :=
  match v with
  | .jstr "request" => .ok .request
  | .jstr "response" => .ok .response
  | .jstr "notification" => .ok .notification
  | .jstr "error" => .ok .error
  | _ => .error (.valueError "MessageType" v)

end Legacy

/-- `AgentRole` enum (defined identically in `a2a_protocol.py` and
`a2a_standard_protocol.py`). -/
inductive AgentRole : Type where
  | company_agent | person_agent | coordinator | weather_agent
deriving DecidableEq, Repr

def AgentRole.value : AgentRole → String
  | .company_agent => "company_agent"
  | .person_agent => "person_agent"
  | .coordinator => "coordinator"
  | .weather_agent => "weather_agent"

/-- Python `AgentRole(x)` enum construction. -/
def AgentRole.fromValue (v : JVal) : Except PyErr AgentRole :=
  match v with
  | .jstr "company_agent" => .ok .company_agent
  | .jstr "person_agent" => .ok .person_agent
  | .jstr "coordinator" => .ok .coordinator
  | .jstr "weather_agent" => .ok .weather_agent
  | _ => .error (.valueError "AgentRole" v)

namespace Legacy

/-- The legacy `A2AMessage` dataclass of `a2a_protocol.py`. -/
structure A2AMessage : Type where
  sender : AgentRole
  receiver : AgentRole
  message_type : MessageType
  content : JVal
  message_id : String
  timestamp : String
  in_reply_to : Option String := none
deriving DecidableEq, Repr

/-- `A2AMessage.to_dict` of `a2a_protocol.py`. -/
def A2AMessage.to_dict (m : A2AMessage) : JVal :=
  jobjOf [
    ("sender", .jstr m.sender.value),
    ("receiver", .jstr m.receiver.value),
    ("message_type", .jstr m.message_type.value),
    ("content", m.content),
    ("message_id", .jstr m.message_id),
    ("timestamp", .jstr m.timestamp),
    ("in_reply_to", optStrVal m.in_reply_to)
  ]

/-- `A2AMessage.from_dict` of `a2a_protocol.py`.  The keyword
arguments of the `cls(...)` call are evaluated left to right, so the
first failing field determines the exception. -/
def A2AMessage.from_dict (data : JVal) : Except PyErr A2AMessage := do
  let sender ← AgentRole.fromValue (← data.pyItem "sender")
  let receiver ← AgentRole.fromValue (← data.pyItem "receiver")
  let message_type ← MessageType.fromValue (← data.pyItem "message_type")
  let content ← data.pyItem "content"
  let message_id ← (← data.pyItem "message_id").asStr
  let timestamp ← (← data.pyItem "timestamp").asStr
  let in_reply_to ← (← data.pyGet "in_reply_to" .null).asOptStr
  .ok { sender, receiver, message_type, content, message_id, timestamp,
        in_reply_to }

end Legacy

-- ===========================================================================
-- Standard envelope (src/a2a_standard_protocol.py)
-- ===========================================================================

namespace Standard

/-- The Part union of `a2a_standard_protocol.py`
(`TextPart`/`JsonPart`/`FilePart`, discriminated by the `type` tag).
The payload fields (`text`, `json`, `uri`, `data`, `filename`) are
runtime-unchecked in the source and so are modelled as `JVal`;
`FilePart`'s optional fields default to `None` (`JVal.null`). -/
inductive Part : Type where
  | text : String → JVal → Part
  | json : String → JVal → Part
  | file : (type : String) → (uri data filename : JVal) → Part
deriving DecidableEq, Repr

/-- `TextPart.to_dict` / `JsonPart.to_dict` / `FilePart.to_dict`.
`FilePart.to_dict` includes `uri`/`data`/`filename` only when the
value is Python-truthy (`if self.uri:` — so `None` and `""` are both
omitted). -/
def Part.to_dict : Part → JVal
  | .text t s => jobjOf [("type", .jstr t), ("text", s)]
  | .json t v => jobjOf [("type", .jstr t), ("json", v)]
  | .file t uri data filename =>
      jobjOf (("type", .jstr t) ::
        ((if uri.truthy then [("uri", uri)] else []) ++
         (if data.truthy then [("data", data)] else []) ++
         (if filename.truthy then [("filename", filename)] else [])))

/-- The standard `A2AMessage` dataclass: `role` + `parts` +
`metadata`.  `role` is annotated `Literal["user", "agent"]` but never
validated at runtime, so it is a `JVal` here. -/
structure A2AMessage : Type where
  role : JVal
  parts : List Part := []
  metadata : JVal := .jobjNil
deriving DecidableEq, Repr

/-- `A2AMessage.to_dict` of `a2a_standard_protocol.py`. -/
def A2AMessage.to_dict (m : A2AMessage) : JVal :=
  jobjOf [
    ("role", m.role),
    ("parts", jarrOf (m.parts.map Part.to_dict)),
    ("metadata", m.metadata)
  ]

/-- One iteration of the part-decoding loop in
`A2AMessage.from_dict`: returns `some part` when a branch matches and
`none` when the `type` tag matches no branch — in which case the part
is silently skipped (no `append` runs).  A non-string tag is a model
boundary (`"file" in part_type` raises `TypeError` in Python). -/
def decodePart (pd : JVal) : Except PyErr (Option Part) := do
  let pt ← pd.pyGet "type" (.jstr "")
  match pt with
  | .jstr s =>
      if s = "text" ∨ s = "text/plain" then
        .ok (some (.text s ((← pd.pyGet "text" (.jstr "")))))
      else if s = "json" ∨ s = "application/json" then
        .ok (some (.json s ((← pd.pyGet "json" .null))))
      else if pyInStr "file" s ∨ pyInStr "/" s then
        .ok (some (.file s (← pd.pyGet "uri" .null) (← pd.pyGet "data" .null)
          (← pd.pyGet "filename" .null)))
      else
        .ok none
  | _ => .error (.typeError "part type not a str")

/-- The `for part_data in data.get("parts", [])` loop of
`A2AMessage.from_dict` (iterating a non-list raises in Python). -/
def decodeParts : JVal → Except PyErr (List Part)
  | .jarrNil => .ok []
  | .jarrCons pd tl => do
      let p? ← decodePart pd
      let rest ← decodeParts tl
      match p? with
      | some p => .ok (p :: rest)
      | none => .ok rest
  | _ => .error (.typeError "parts not iterable")

/-- `A2AMessage.from_dict` of `a2a_standard_protocol.py`: decodes the
parts, then builds the message with `data["role"]` (a `KeyError` when
absent, but no validation of the value) and
`data.get("metadata", {})`. -/
def A2AMessage.from_dict (data : JVal) : Except PyErr A2AMessage := do
  let parts ← decodeParts (← data.pyGet "parts" .jarrNil)
  let role ← data.pyItem "role"
  let metadata ← data.pyGet "metadata" .jobjNil
  .ok { role, parts, metadata }

/-- The `AgentMessage` routing shell of `a2a_standard_protocol.py`:
the standard message plus sender/receiver/id/timestamp/in_reply_to.
The generated uuid and timestamp are explicit fields here. -/
structure AgentMessage : Type where
  message : A2AMessage
  sender : AgentRole
  receiver : AgentRole
  message_id : String
  timestamp : String
  in_reply_to : Option String := none
deriving DecidableEq, Repr

/-- A registered handler: an envelope in, optionally an envelope out;
`Except` carries a raised Python exception (its message). -/
def Handler : Type := AgentMessage → Except String (Option AgentMessage)

/-- The mutable state of `MessageBus` (`a2a_standard_protocol.py`):
the append-only history and the role → handler map.  (`AgentRole`
keys are stored via their `.value` string.) -/
structure BusState : Type where
  message_history : List AgentMessage := []
  agent_handlers : List (String × Handler) := []

/-- `MessageBus.register_agent`: overwrite semantics. -/
def BusState.register_agent (st : BusState) (role : AgentRole) (h : Handler) :
    BusState :=
  { st with agent_handlers := pyDictSet st.agent_handlers role.value h }

/-- `MessageBus.send_message`.  Returns the Python result (`raise`
modelled as `.error`), the bus state after the call, and the list of
handler invocations the call performed (receiver role, argument) —
the source calls `handler(agent_message)` exactly once on the routed
path and zero times otherwise.  The request is appended to history
before routing; a non-null response (`if response:` — a dataclass is
always truthy) is appended after the handler returns; a raising
handler is logged and re-raised with only the request appended. -/
def BusState.send_message (st : BusState) (msg : AgentMessage) :
    Except String (Option AgentMessage) × BusState ×
      List (AgentRole × AgentMessage) :=
  let hist1 := st.message_history ++ [msg]
  match alookup st.agent_handlers msg.receiver.value with
  | some handler =>
      match handler msg with
      | .error e => (.error e, { st with message_history := hist1 },
          [(msg.receiver, msg)])
      | .ok (some response) =>
          (.ok (some response),
           { st with message_history := hist1 ++ [response] },
           [(msg.receiver, msg)])
      | .ok none => (.ok none, { st with message_history := hist1 },
          [(msg.receiver, msg)])
  | none => (.ok none, { st with message_history := hist1 }, [])

/-- A straight-line sequence of `send_message` calls (an exception
aborts the sequence, as it would abort the Python caller). -/
def BusState.sendMany (st : BusState) :
    List AgentMessage → Except String (BusState × List (Option AgentMessage))
  | [] => .ok (st, [])
  | m :: ms =>
      match st.send_message m with
      | (.error e, _, _) => .error e
      | (.ok r, st', _) => do
          let (st'', rs) ← st'.sendMany ms
          .ok (st'', r :: rs)

/-- The reply-scanning loop of `MessageBus.get_conversation`:
repeatedly find the first history entry whose `in_reply_to` equals
the chain's last `message_id`.  The source's `while True` loop is
given explicit fuel; `history.length` iterations provably suffice
whenever the spec's threading invariant holds (`threadOK` below). -/
def chainFrom (history : List AgentMessage) (currentId : String) :
    Nat → List AgentMessage
  | 0 => []
  | fuel + 1 =>
      match history.find? (fun m => m.in_reply_to == some currentId) with
      | none => []
      | some reply => reply :: chainFrom history reply.message_id fuel

/-- `MessageBus.get_conversation` of `a2a_standard_protocol.py`
(the legacy `MessageBus.get_conversation` is line-for-line the same
algorithm). -/
def get_conversation (history : List AgentMessage) (message_id : String) :
    List AgentMessage :=
  match history.find? (fun m => m.message_id == message_id) with
  | none => []
  | some initial => initial :: chainFrom history message_id history.length

end Standard

-- ===========================================================================
-- Task / session context (src/a2a_task_context.py)
-- ===========================================================================

namespace TaskCtx

/-- `TaskState` enum of `a2a_task_context.py`. -/
inductive TaskState : Type where
  | submitted | working | input_required | completed | canceled | failed
  | unknown
deriving DecidableEq, Repr

/-- `TaskStatus` dataclass: state + optional status message + a
timestamp (`datetime.now()` default; the clock is an explicit
argument in this model). -/
structure TaskStatus : Type where
  state : TaskState
  message : Option Standard.A2AMessage := none
  timestamp : String
deriving DecidableEq, Repr

/-- The `Task` dataclass. -/
structure Task : Type where
  id : String
  session_id : String
  status : TaskStatus
  history : List Standard.A2AMessage := []
  artifacts : List JVal := []
  metadata : JVal := .jobjNil
deriving DecidableEq, Repr

/-- A freshly constructed `Task(...)`: the status default factory is
`TaskStatus(state=TaskState.SUBMITTED)`, history/artifacts empty. -/
def mkTask (id session_id : String) (metadata : JVal) (now : String) : Task :=
  { id, session_id, status := { state := .submitted, timestamp := now },
    history := [], artifacts := [], metadata }

/-- `Task.add_message`: append to `history`. -/
def Task.add_message (t : Task) (m : Standard.A2AMessage) : Task :=
  { t with history := t.history ++ [m] }

/-- `Task.update_status`: replace `status` with a new `TaskStatus`
record (fresh timestamp `now`). -/
def Task.update_status (t : Task) (state : TaskState)
    (message : Option Standard.A2AMessage) (now : String) : Task :=
  { t with status := { state, message, timestamp := now } }

/-- `Task.add_artifact`: append to `artifacts`. -/
def Task.add_artifact (t : Task) (a : JVal) : Task :=
  { t with artifacts := t.artifacts ++ [a] }

/-- `Task.get_context`: `if max_messages:` is a truthiness test, so
`None` *and* `0` take the `history.copy()` branch; a positive `n`
returns `history[-n:]`, the trailing `min n len` entries. -/
def Task.get_context (t : Task) (max_messages : Option Nat) :
    List Standard.A2AMessage :=
  match max_messages with
  | some n => if n ≠ 0 then t.history.drop (t.history.length - n)
              else t.history
  | none => t.history

/-- `TaskManager` state: insertion-ordered task dict and
session → task-ids dict. -/
structure TaskManager : Type where
  tasks : List (String × Task) := []
  sessions : List (String × List String) := []

def TaskManager.empty : TaskManager := {}

/-- `TaskManager.create_task`: build the task (generated uuid ids are
the explicit `freshTaskId`/`freshSessionId` arguments; `metadata or
{}` makes `None` and `{}` both `{}`), store it under its id, register
the session list if new, and append the task id to it. -/
def TaskManager.create_task (mgr : TaskManager) (freshTaskId : String)
    (session_id : Option String) (freshSessionId : String)
    (metadata : Option JVal) (now : String) : TaskManager × Task :=
  let task := mkTask freshTaskId (session_id.getD freshSessionId)
    (metadata.getD .jobjNil) now
  let tasks' := pyDictSet mgr.tasks task.id task
  let sessions' :=
    if (alookup mgr.sessions task.session_id).isSome then
      pyDictUpdate mgr.sessions task.session_id (fun ids => ids ++ [task.id])
    else mgr.sessions ++ [(task.session_id, [task.id])]
  ({ tasks := tasks', sessions := sessions' }, task)

/-- `TaskManager.get_task`. -/
def TaskManager.get_task (mgr : TaskManager) (task_id : String) :
    Option Task :=
  alookup mgr.tasks task_id

/-- `TaskManager.get_session_tasks`:
`[self.tasks[tid] for tid in task_ids if tid in self.tasks]`. -/
def TaskManager.get_session_tasks (mgr : TaskManager) (session_id : String) :
    List Task :=
  ((alookup mgr.sessions session_id).getD []).filterMap
    (fun tid => alookup mgr.tasks tid)

/-- `TaskManager.get_session_context`: concatenate each session
task's history (the `all_messages.extend(task.history)` loop), then
the same truthiness-guarded trailing truncation as `get_context`. -/
def TaskManager.get_session_context (mgr : TaskManager) (session_id : String)
    (max_messages : Option Nat) : List Standard.A2AMessage :=
  let all_messages := (mgr.get_session_tasks session_id).foldl
    (fun acc t => acc ++ t.history) []
  match max_messages with
  | some n => if n ≠ 0 then all_messages.drop (all_messages.length - n)
              else all_messages
  | none => all_messages

/-- `manager.get_task(tid).add_message(m)` under Python reference
semantics: the dict stores a reference to the task object, so
mutating the task mutates the stored entry. -/
def TaskManager.addMessageTo (mgr : TaskManager) (task_id : String)
    (m : Standard.A2AMessage) : TaskManager :=
  { mgr with
    tasks := pyDictUpdate mgr.tasks task_id (fun t => t.add_message m) }

end TaskCtx

-- ===========================================================================
-- Round-trip lemmas (C1)
-- ===========================================================================

theorem AgentRole.fromValue_value (r : AgentRole) :
    AgentRole.fromValue (.jstr r.value) = .ok r := by
  cases r <;> rfl

theorem Legacy.MessageType.fromValue_of_value (t : Legacy.MessageType) :
    Legacy.MessageType.fromValue (.jstr t.value) = .ok t := by
  cases t <;> rfl

theorem asOptStr_optStrVal (x : Option String) :
    (optStrVal x).asOptStr = .ok x := by
  cases x <;> rfl

/-- The legacy envelope always round-trips. -/
theorem Legacy.roundtrip (m : Legacy.A2AMessage) :
    Legacy.A2AMessage.from_dict m.to_dict = .ok m := by
  obtain ⟨s, r, mt, c, mid, ts, irt⟩ := m
  cases s <;> cases r <;> cases mt <;> cases irt <;> rfl

namespace Standard

/-- The condition under which a Part survives
`to_dict`-then-`from_dict` unchanged: its `type` tag selects its own
kind, and each optional `FilePart` field is Python-truthy or `None`
(a falsy non-`None` value such as `""` is silently dropped by
`FilePart.to_dict` and comes back as `None`). -/
def PartRT : Part → Prop
  | .text t _ => t = "text" ∨ t = "text/plain"
  | .json t _ => t = "json" ∨ t = "application/json"
  | .file t uri data filename =>
      (t ≠ "text" ∧ t ≠ "text/plain" ∧ t ≠ "json" ∧ t ≠ "application/json") ∧
      (pyInStr "file" t = true ∨ pyInStr "/" t = true) ∧
      (uri.truthy = true ∨ uri = .null) ∧
      (data.truthy = true ∨ data = .null) ∧
      (filename.truthy = true ∨ filename = .null)

theorem decodePart_to_dict (p : Part) (h : PartRT p) :
    decodePart p.to_dict = .ok (some p) := by
  match p with
  | .text t s =>
      rcases h with h | h <;> subst h <;> rfl
  | .json t v =>
      rcases h with h | h <;> subst h <;> rfl
  | .file t uri data filename =>
      obtain ⟨⟨h1, h2, h3, h4⟩, h5, hu, hd, hf⟩ := h
      simp only [Part.to_dict, decodePart, jobjOf, JVal.pyGet, JVal.isDict,
        JVal.lookup]
      rcases hu with hu | hu <;> rcases hd with hd | hd <;>
        rcases hf with hf | hf <;>
        simp_all [jobjOf, JVal.lookup, JVal.truthy, JVal.pyGet, bind,
          Except.bind]

theorem decodeParts_to_dict (ps : List Part) (h : ∀ p ∈ ps, PartRT p) :
    decodeParts (jarrOf (ps.map Part.to_dict)) = .ok ps := by
  induction ps with
  | nil => rfl
  | cons p rest ih =>
      simp only [List.map, jarrOf, decodeParts,
        decodePart_to_dict p (h p (by simp)),
        ih (fun q hq => h q (by simp [hq])), bind, Except.bind]

end Standard

/-- C1: the claim as stated is false — a `FilePart` whose `uri` is
the empty string does not round-trip (`to_dict` omits falsy optional
fields, so `from_dict` restores `None`): `to_dict`-then-`from_dict`
of that envelope yields a different envelope. -/
theorem roundtrip_file_empty_uri_counterexample :
    Standard.A2AMessage.from_dict (Standard.A2AMessage.to_dict
      { role := .jstr "user",
        parts := [.file "file" (.jstr "") .null .null],
        metadata := .jobjNil }) =
      .ok { role := .jstr "user",
            parts := [.file "file" .null .null .null],
            metadata := .jobjNil } ∧
    ({ role := .jstr "user", parts := [.file "file" .null .null .null],
       metadata := .jobjNil } : Standard.A2AMessage) ≠
      { role := .jstr "user", parts := [.file "file" (.jstr "") .null .null],
        metadata := .jobjNil } := by
  exact ⟨rfl, by decide⟩

/-- C1 (amended): every legacy envelope round-trips through
`to_dict`/`from_dict` with all fields preserved, and a standard
message round-trips provided each of its Parts' `type` tags selects
that Part's own kind (text/json tags for text/json Parts; a file Part
needs a type containing `"file"` or `"/"` that is none of the four
text/json tags) and each optional `FilePart` field is Python-truthy
or `None` (an empty-string `uri`/`data`/`filename` does not
round-trip). -/
theorem roundtrip_amended (mL : Legacy.A2AMessage) (mS : Standard.A2AMessage)
    (hp : ∀ p ∈ mS.parts, Standard.PartRT p) :
    Legacy.A2AMessage.from_dict mL.to_dict = .ok mL ∧
    Standard.A2AMessage.from_dict mS.to_dict = .ok mS := by
  refine ⟨Legacy.roundtrip mL, ?_⟩
  simp [Standard.A2AMessage.to_dict, Standard.A2AMessage.from_dict,
    jobjOf, JVal.pyItem, JVal.pyGet, JVal.isDict, JVal.lookup,
    Standard.decodeParts_to_dict mS.parts hp, bind, Except.bind]

/-- Witness for `roundtrip_amended` at a concrete request-style
envelope pair. -/
theorem roundtrip_amended_witness :
    Legacy.A2AMessage.from_dict (Legacy.A2AMessage.to_dict
      { sender := .coordinator, receiver := .company_agent,
        message_type := .request,
        content := jobjOf [("action", .jstr "get_stock_price")],
        message_id := "m1", timestamp := "t1", in_reply_to := none }) =
      .ok { sender := .coordinator, receiver := .company_agent,
            message_type := .request,
            content := jobjOf [("action", .jstr "get_stock_price")],
            message_id := "m1", timestamp := "t1", in_reply_to := none } ∧
    Standard.A2AMessage.from_dict (Standard.A2AMessage.to_dict
      { role := .jstr "user",
        parts := [.text "text" (.jstr "Request: get_stock_price"),
                  .json "json" (jobjOf [("action", .jstr "get_stock_price")]),
                  .file "image/jpeg" (.jstr "u") .null (.jstr "f.jpg")],
        metadata := jobjOf [("message_type", .jstr "request")] }) =
      .ok { role := .jstr "user",
            parts := [.text "text" (.jstr "Request: get_stock_price"),
                      .json "json" (jobjOf [("action", .jstr "get_stock_price")]),
                      .file "image/jpeg" (.jstr "u") .null (.jstr "f.jpg")],
            metadata := jobjOf [("message_type", .jstr "request")] } :=
  roundtrip_amended _ _
    (by intro p hp; fin_cases hp <;> simp [Standard.PartRT] <;> decide)

-- ===========================================================================
-- Decode errors (C2)
-- ===========================================================================

/-- C2: the claim as stated is false — deserializing a standard
envelope whose `role` is the unrecognized tag `"system"` and whose
single Part has the unknown type `"blob"` (no `"/"`) succeeds
silently: no error of any kind is raised, the unknown role is
accepted unvalidated, and the Part is dropped rather than
rejected. -/
theorem decode_unknown_accepted_counterexample :
    Standard.A2AMessage.from_dict (jobjOf
      [("role", .jstr "system"),
       ("parts", jarrOf [jobjOf [("type", .jstr "blob"),
                                 ("text", .jstr "payload")]]),
       ("metadata", .jobjNil)]) =
      .ok { role := .jstr "system", parts := [], metadata := .jobjNil } :=
  rfl

/-- C2 (amended): no `DecodeError` class exists in the repository.
The legacy `from_dict` raises Python's builtin `KeyError` naming the
field when `sender`/`receiver`/`message_type` is absent, and
propagates the `ValueError` of enum construction when a tag value is
unrecognized.  The standard `from_dict` raises `KeyError("role")`
only when `role` is absent (and the parts decoded); it accepts any
present `role` value without validation, and silently skips any Part
whose type string matches no text/json tag and contains neither
`"file"` nor `"/"`. -/
theorem decode_errors_amended :
    (∀ d : JVal, d.isDict = true → d.lookup "sender" = none →
      Legacy.A2AMessage.from_dict d = .error (.keyError "sender")) ∧
    (∀ d v e, d.isDict = true → d.lookup "sender" = some v →
      AgentRole.fromValue v = .error e →
      Legacy.A2AMessage.from_dict d = .error e) ∧
    (∀ d v r, d.isDict = true → d.lookup "sender" = some v →
      AgentRole.fromValue v = .ok r → d.lookup "receiver" = none →
      Legacy.A2AMessage.from_dict d = .error (.keyError "receiver")) ∧
    (∀ d v r v' e, d.isDict = true → d.lookup "sender" = some v →
      AgentRole.fromValue v = .ok r → d.lookup "receiver" = some v' →
      AgentRole.fromValue v' = .error e →
      Legacy.A2AMessage.from_dict d = .error e) ∧
    (∀ d v v' r r', d.isDict = true → d.lookup "sender" = some v →
      AgentRole.fromValue v = .ok r → d.lookup "receiver" = some v' →
      AgentRole.fromValue v' = .ok r' → d.lookup "message_type" = none →
      Legacy.A2AMessage.from_dict d = .error (.keyError "message_type")) ∧
    (∀ d v v' r r' v'' e, d.isDict = true → d.lookup "sender" = some v →
      AgentRole.fromValue v = .ok r → d.lookup "receiver" = some v' →
      AgentRole.fromValue v' = .ok r' → d.lookup "message_type" = some v'' →
      Legacy.MessageType.fromValue v'' = .error e →
      Legacy.A2AMessage.from_dict d = .error e) ∧
    (∀ d ps, d.isDict = true →
      Standard.decodeParts ((d.lookup "parts").getD .jarrNil) = .ok ps →
      d.lookup "role" = none →
      Standard.A2AMessage.from_dict d = .error (.keyError "role")) ∧
    (∀ d ps v, d.isDict = true →
      Standard.decodeParts ((d.lookup "parts").getD .jarrNil) = .ok ps →
      d.lookup "role" = some v →
      Standard.A2AMessage.from_dict d =
        .ok { role := v, parts := ps,
              metadata := (d.lookup "metadata").getD .jobjNil }) ∧
    (∀ pd s, pd.isDict = true → pd.lookup "type" = some (.jstr s) →
      s ≠ "text" → s ≠ "text/plain" → s ≠ "json" → s ≠ "application/json" →
      pyInStr "file" s = false → pyInStr "/" s = false →
      Standard.decodePart pd = .ok none) := by
  refine ⟨?_, ?_, ?_, ?_, ?_, ?_, ?_, ?_, ?_⟩
  · intro d hd hs
    simp [Legacy.A2AMessage.from_dict, JVal.pyItem, hd, hs, bind, Except.bind]
  · intro d v e hd hs he
    simp [Legacy.A2AMessage.from_dict, JVal.pyItem, hd, hs, he, bind,
      Except.bind]
  · intro d v r hd hs hv hr
    simp [Legacy.A2AMessage.from_dict, JVal.pyItem, hd, hs, hv, hr, bind,
      Except.bind]
  · intro d v r v' e hd hs hv hr he
    simp [Legacy.A2AMessage.from_dict, JVal.pyItem, hd, hs, hv, hr, he,
      bind, Except.bind]
  · intro d v v' r r' hd hs hv hr hv' hm
    simp [Legacy.A2AMessage.from_dict, JVal.pyItem, hd, hs, hv, hr, hv', hm,
      bind, Except.bind]
  · intro d v v' r r' v'' e hd hs hv hr hv' hm he
    simp [Legacy.A2AMessage.from_dict, JVal.pyItem, hd, hs, hv, hr, hv', hm,
      he, bind, Except.bind]
  · intro d ps hd hps hr
    simp [Standard.A2AMessage.from_dict, JVal.pyGet, JVal.pyItem, hd, hps,
      hr, bind, Except.bind]
  · intro d ps v hd hps hr
    simp [Standard.A2AMessage.from_dict, JVal.pyGet, JVal.pyItem, hd, hps,
      hr, bind, Except.bind]
  · intro pd s hd ht h1 h2 h3 h4 h5 h6
    simp [Standard.decodePart, JVal.pyGet, hd, ht, h1, h2, h3, h4, h5, h6,
      bind, Except.bind]

/-- Witness for `decode_errors_amended` on concrete malformed
inputs, one per clause: absent and unrecognized sender, receiver and
message_type tags on the legacy shape, absent and unvalidated role on
the standard shape, and a silently skipped unknown Part. -/
theorem decode_errors_amended_witness :
    Legacy.A2AMessage.from_dict (jobjOf [("content", .jobjNil)]) =
      .error (.keyError "sender") ∧
    Legacy.A2AMessage.from_dict (jobjOf [("sender", .jstr "intruder")]) =
      .error (.valueError "AgentRole" (.jstr "intruder")) ∧
    Legacy.A2AMessage.from_dict (jobjOf [("sender", .jstr "coordinator")]) =
      .error (.keyError "receiver") ∧
    Legacy.A2AMessage.from_dict
        (jobjOf [("sender", .jstr "coordinator"),
                 ("receiver", .jstr "nobody")]) =
      .error (.valueError "AgentRole" (.jstr "nobody")) ∧
    Legacy.A2AMessage.from_dict
        (jobjOf [("sender", .jstr "coordinator"),
                 ("receiver", .jstr "company_agent")]) =
      .error (.keyError "message_type") ∧
    Legacy.A2AMessage.from_dict
        (jobjOf [("sender", .jstr "coordinator"),
                 ("receiver", .jstr "company_agent"),
                 ("message_type", .jstr "broadcast")]) =
      .error (.valueError "MessageType" (.jstr "broadcast")) ∧
    Standard.A2AMessage.from_dict (jobjOf [("parts", jarrOf [])]) =
      .error (.keyError "role") ∧
    Standard.A2AMessage.from_dict (jobjOf [("role", .jstr "system")]) =
      .ok { role := .jstr "system", parts := [], metadata := .jobjNil } ∧
    Standard.decodePart (jobjOf [("type", .jstr "blob")]) = .ok none := by
  refine ⟨?_, ?_, ?_, ?_, ?_, ?_, ?_, ?_, ?_⟩
  · exact decode_errors_amended.1 _ rfl rfl
  · exact decode_errors_amended.2.1 _ _ _ rfl rfl rfl
  · exact decode_errors_amended.2.2.1 _ _ _ rfl rfl rfl rfl
  · exact decode_errors_amended.2.2.2.1 _ _ _ _ _ rfl rfl rfl rfl rfl
  · exact decode_errors_amended.2.2.2.2.1 _ _ _ _ _ rfl rfl rfl rfl rfl rfl
  · exact decode_errors_amended.2.2.2.2.2.1 _ _ _ _ _ _ _ rfl rfl rfl rfl
      rfl rfl rfl
  · exact decode_errors_amended.2.2.2.2.2.2.1 _ [] rfl rfl rfl
  · exact decode_errors_amended.2.2.2.2.2.2.2.1 _ [] _ rfl rfl rfl
  · exact decode_errors_amended.2.2.2.2.2.2.2.2 _ "blob" rfl rfl (by decide)
      (by decide) (by decide) (by decide) rfl rfl

-- ===========================================================================
-- Bus routing (C3, C9)
-- ===========================================================================

namespace Standard

theorem send_message_history_length (st : BusState) (msg : AgentMessage) :
    (st.send_message msg).2.1.message_history.length =
      st.message_history.length +
        (match (st.send_message msg).1 with | .ok (some _) => 2 | _ => 1) := by
  unfold BusState.send_message
  cases hl : alookup st.agent_handlers msg.receiver.value with
  | none => simp
  | some handler =>
      cases hh : handler msg with
      | error e => simp [hh]
      | ok r => cases r <;> simp [hh]

end Standard

/-- C3: (i) `send` to a receiver with no registered handler returns
null without raising, appends exactly the request to history, and
invokes no handler; (ii) `send` to a registered receiver invokes
exactly that receiver's handler exactly once (the invocation trace is
the singleton `(receiver, request)`), and when the handler returns a
non-null response, appends request then response (two entries) and
returns the response, while a null handler result appends only the
request and returns null; (iii) after any straight-line sequence of
`send` calls, history has grown by 2 per call that got a response
plus 1 per call that got none. -/
theorem send_message_routing :
    (∀ (st : Standard.BusState) (msg : Standard.AgentMessage),
      alookup st.agent_handlers msg.receiver.value = none →
      st.send_message msg =
        (.ok none, { st with message_history := st.message_history ++ [msg] },
         [])) ∧
    (∀ (st : Standard.BusState) (msg : Standard.AgentMessage)
       (h : Standard.Handler),
      alookup st.agent_handlers msg.receiver.value = some h →
      (st.send_message msg).2.2 = [(msg.receiver, msg)] ∧
      (∀ r, h msg = .ok (some r) →
        st.send_message msg =
          (.ok (some r),
           { st with message_history := st.message_history ++ [msg] ++ [r] },
           [(msg.receiver, msg)])) ∧
      (h msg = .ok none →
        st.send_message msg =
          (.ok none,
           { st with message_history := st.message_history ++ [msg] },
           [(msg.receiver, msg)]))) ∧
    (∀ (st : Standard.BusState) (msgs : List Standard.AgentMessage)
       (st' : Standard.BusState) (rs : List (Option Standard.AgentMessage)),
      st.sendMany msgs = .ok (st', rs) →
      st'.message_history.length = st.message_history.length + msgs.length +
        rs.countP (fun r => r.isSome)) := by
  refine ⟨?_, ?_, ?_⟩
  · intro st msg hl
    simp only [Standard.BusState.send_message, hl]
  · intro st msg h hl
    refine ⟨?_, ?_, ?_⟩
    · simp only [Standard.BusState.send_message, hl]
      cases hh : h msg with
      | error e => simp [hh]
      | ok r => cases r <;> simp [hh]
    · intro r hr
      simp only [Standard.BusState.send_message, hl, hr]
    · intro hr
      simp only [Standard.BusState.send_message, hl, hr]
  · intro st msgs
    induction msgs generalizing st with
    | nil =>
        intro st' rs h
        simp only [Standard.BusState.sendMany, Except.ok.injEq,
          Prod.mk.injEq] at h
        obtain ⟨rfl, rfl⟩ := h
        simp
    | cons m ms ih =>
        intro st' rs h
        simp only [Standard.BusState.sendMany] at h
        rcases hs : st.send_message m with ⟨res, st1, ev⟩
        rw [hs] at h
        rcases res with e | r
        · simp at h
        · simp only [bind, Except.bind] at h
          rcases hrest : st1.sendMany ms with e' | ⟨st2, rs'⟩ <;>
            rw [hrest] at h
          · simp at h
          · simp only [Except.ok.injEq, Prod.mk.injEq] at h
            obtain ⟨rfl, rfl⟩ := h
            have h1 := Standard.send_message_history_length st m
            rw [hs] at h1
            have h2 := ih st1 st2 rs' hrest
            rcases r with _ | r <;>
              simp only [List.countP_cons, List.length_cons] at h1 h2 ⊢ <;>
              simp_all <;> omega

/-- Witness for `send_message_routing` on a concrete two-agent
bus. -/
theorem send_message_routing_witness :
    (Standard.BusState.mk [] []).send_message
        { message := { role := .jstr "user" }, sender := .coordinator,
          receiver := .company_agent, message_id := "m1",
          timestamp := "t1" } =
      (.ok none,
       { message_history :=
           [{ message := { role := .jstr "user" }, sender := .coordinator,
              receiver := .company_agent, message_id := "m1",
              timestamp := "t1" }],
         agent_handlers := [] }, []) := by
  have := send_message_routing.1 (Standard.BusState.mk [] [])
    { message := { role := .jstr "user" }, sender := .coordinator,
      receiver := .company_agent, message_id := "m1", timestamp := "t1" }
    rfl
  simpa using this

/-- C9: when a registered handler raises, the Bus re-raises the very
same exception to the caller (never masking it as a protocol error
envelope or a null result), the handler was invoked exactly once, and
history afterwards contains the request with no response entry for
that call. -/
theorem handler_error_propagation (st : Standard.BusState)
    (msg : Standard.AgentMessage) (h : Standard.Handler) (e : String)
    (hreg : alookup st.agent_handlers msg.receiver.value = some h)
    (herr : h msg = .error e) :
    st.send_message msg =
      (.error e,
       { st with message_history := st.message_history ++ [msg] },
       [(msg.receiver, msg)]) := by
  simp only [Standard.BusState.send_message, hreg, herr]

/-- Witness for `handler_error_propagation`: a concrete handler that
always raises. -/
theorem handler_error_propagation_witness :
    (Standard.BusState.mk []
        [("company_agent", fun _ => .error "boom")]).send_message
      { message := { role := .jstr "user" }, sender := .coordinator,
        receiver := .company_agent, message_id := "m1", timestamp := "t1" } =
      (.error "boom",
       { message_history :=
           [{ message := { role := .jstr "user" }, sender := .coordinator,
              receiver := .company_agent, message_id := "m1",
              timestamp := "t1" }],
         agent_handlers := [("company_agent", fun _ => .error "boom")] },
       [(.company_agent,
         { message := { role := .jstr "user" }, sender := .coordinator,
           receiver := .company_agent, message_id := "m1",
           timestamp := "t1" })]) :=
  handler_error_propagation _ _ _ _ rfl rfl

-- ===========================================================================
-- Conversation threading (C4, C5)
-- ===========================================================================

/-- C4: with history exactly A (id 1), B (reply to 1, id 2),
C (reply to 2, id 3), `get_conversation(1)` returns `[A, B, C]` in
that order; `get_conversation` of a message_id present nowhere in
history returns `[]`; and when two history entries both reply to the
same id, only the first in insertion order is attached to the
chain. -/
theorem get_conversation_threading :
    (∀ A B C : Standard.AgentMessage,
      A.message_id = "1" → A.in_reply_to = none →
      B.message_id = "2" → B.in_reply_to = some "1" →
      C.message_id = "3" → C.in_reply_to = some "2" →
      Standard.get_conversation [A, B, C] "1" = [A, B, C]) ∧
    (∀ (history : List Standard.AgentMessage) (mid : String),
      (∀ m ∈ history, m.message_id ≠ mid) →
      Standard.get_conversation history mid = []) ∧
    (∀ A B1 B2 : Standard.AgentMessage,
      A.message_id = "1" → A.in_reply_to = none →
      B1.message_id = "2" → B1.in_reply_to = some "1" →
      B2.message_id = "3" → B2.in_reply_to = some "1" →
      Standard.get_conversation [A, B1, B2] "1" = [A, B1]) := by
  refine ⟨?_, ?_, ?_⟩
  · intro A B C hA hAr hB hBr hC hCr
    simp [Standard.get_conversation, Standard.chainFrom, List.find?,
      hA, hAr, hB, hBr, hC, hCr]
  · intro history mid h
    unfold Standard.get_conversation
    have hf : history.find? (fun m => m.message_id == mid) = none := by
      rw [List.find?_eq_none]
      intro m hm
      simpa using h m hm
    rw [hf]
  · intro A B1 B2 hA hAr hB1 hB1r hB2 hB2r
    simp [Standard.get_conversation, Standard.chainFrom, List.find?,
      hA, hAr, hB1, hB1r, hB2, hB2r]

/-- Witness for `get_conversation_threading` on concrete
messages. -/
theorem get_conversation_threading_witness :
    Standard.get_conversation
        [{ message := { role := .jstr "user" }, sender := .coordinator,
           receiver := .company_agent, message_id := "1",
           timestamp := "t1" },
         { message := { role := .jstr "agent" }, sender := .company_agent,
           receiver := .coordinator, message_id := "2", timestamp := "t2",
           in_reply_to := some "1" },
         { message := { role := .jstr "user" }, sender := .coordinator,
           receiver := .company_agent, message_id := "3", timestamp := "t3",
           in_reply_to := some "2" }] "1" =
      [{ message := { role := .jstr "user" }, sender := .coordinator,
         receiver := .company_agent, message_id := "1",
         timestamp := "t1" },
       { message := { role := .jstr "agent" }, sender := .company_agent,
         receiver := .coordinator, message_id := "2", timestamp := "t2",
         in_reply_to := some "1" },
       { message := { role := .jstr "user" }, sender := .coordinator,
         receiver := .company_agent, message_id := "3", timestamp := "t3",
         in_reply_to := some "2" }] ∧
    Standard.get_conversation
        [{ message := { role := .jstr "user" }, sender := .coordinator,
           receiver := .company_agent, message_id := "1",
           timestamp := "t1" }] "nope" = [] := by
  constructor
  · exact get_conversation_threading.1 _ _ _ rfl rfl rfl rfl rfl rfl
  · exact get_conversation_threading.2.1 _ _ (by decide)

namespace Standard

/-- The spec's threading invariant: `message_id`s are unique across
history, and every non-null `in_reply_to` references the
`message_id` of a strictly earlier history entry. -/
def threadOK (h : List AgentMessage) : Prop :=
  (h.map (fun m => m.message_id)).Nodup ∧
  ∀ i : Fin h.length, ∀ rid, (h.get i).in_reply_to = some rid →
    ∃ j : Fin h.length, (j : ℕ) < (i : ℕ) ∧ (h.get j).message_id = rid

/-- Under `threadOK`, the reply found for the id of entry `j` sits
strictly after `j` in history. -/
theorem find_reply_later (h : List AgentMessage) (ok : threadOK h)
    (j : Fin h.length) (r : AgentMessage)
    (hf : h.find? (fun m => m.in_reply_to == some (h.get j).message_id) =
      some r) :
    ∃ i : Fin h.length, h.get i = r ∧ (j : ℕ) < (i : ℕ) := by
  obtain ⟨nodup, ref⟩ := ok
  have hmem : r ∈ h := List.mem_of_find?_eq_some hf
  have hp : r.in_reply_to = some (h.get j).message_id := by
    have := List.find?_some hf
    simpa using this
  obtain ⟨i, hi⟩ := List.mem_iff_get.mp hmem
  obtain ⟨j', hj'lt, hj'id⟩ := ref i (h.get j).message_id (by rw [hi, hp])
  have : j' = j := by
    have hinj := List.Nodup.get_inj_iff nodup
      (i := ⟨(j' : ℕ), by simpa using j'.isLt⟩)
      (j := ⟨(j : ℕ), by simpa using j.isLt⟩)
    have hgj' : (h.map (fun m => m.message_id)).get
        ⟨(j' : ℕ), by simpa using j'.isLt⟩ = (h.get j').message_id := by
      simp [List.get_map]
    have hgj : (h.map (fun m => m.message_id)).get
        ⟨(j : ℕ), by simpa using j.isLt⟩ = (h.get j).message_id := by
      simp [List.get_map]
    have heq : (h.get j').message_id = (h.get j).message_id := hj'id
    have hmk := hinj.mp (by rw [hgj', hgj]; exact heq)
    have hval : (j' : ℕ) = (j : ℕ) :=
      congrArg (@Fin.val (List.map (fun m => m.message_id) h).length) hmk
    exact Fin.ext hval
  subst this
  exact ⟨i, hi, hj'lt⟩

/-- The scan loop stabilizes: starting from the id of entry `j`, any
fuel of at least `h.length - j` computes the same chain. -/
theorem chainFrom_stable (h : List AgentMessage) (ok : threadOK h) :
    ∀ k (j : Fin h.length) (f1 f2 : ℕ), h.length - (j : ℕ) ≤ k →
      h.length - (j : ℕ) ≤ f1 → h.length - (j : ℕ) ≤ f2 →
      chainFrom h ((h.get j).message_id) f1 =
        chainFrom h ((h.get j).message_id) f2 := by
  intro k
  induction k with
  | zero =>
      intro j f1 f2 hk _ _
      exact absurd hk (by omega)
  | succ k ih =>
      intro j f1 f2 hk hf1 hf2
      have hj : (j : ℕ) < h.length := j.isLt
      obtain ⟨f1', rfl⟩ : ∃ f1', f1 = f1' + 1 :=
        ⟨f1 - 1, by omega⟩
      obtain ⟨f2', rfl⟩ : ∃ f2', f2 = f2' + 1 :=
        ⟨f2 - 1, by omega⟩
      unfold chainFrom
      cases hf : h.find?
          (fun m => m.in_reply_to == some (h.get j).message_id) with
      | none => rfl
      | some r =>
          obtain ⟨i, hi, hlt⟩ := find_reply_later h ok j r hf
          have hrec : chainFrom h r.message_id f1' =
              chainFrom h r.message_id f2' := by
            rw [← hi]
            exact ih i f1' f2' (by omega) (by omega) (by omega)
          show r :: chainFrom h r.message_id f1' =
            r :: chainFrom h r.message_id f2'
          rw [hrec]

/-- C5: under the spec's threading invariant (unique ids, every
`in_reply_to` referencing a strictly earlier entry), the
scan-and-advance loop of `get_conversation` terminates for every
starting message_id: `history.length` iterations of fuel already
compute the fixed point, and any larger fuel gives the same
result. -/
theorem get_conversation_terminates (h : List Standard.AgentMessage)
    (ok : Standard.threadOK h) (mid : String) (fuel : ℕ)
    (hfuel : h.length ≤ fuel) :
    Standard.chainFrom h mid fuel = Standard.chainFrom h mid h.length := by
  by_cases hex : ∃ j : Fin h.length, (h.get j).message_id = mid
  · obtain ⟨j, rfl⟩ := hex
    exact Standard.chainFrom_stable h ok (h.length - (j : ℕ)) j fuel h.length
      le_rfl (by omega) (by omega)
  · have hnone : h.find? (fun m => m.in_reply_to == some mid) = none := by
      rw [List.find?_eq_none]
      intro m hm hbeq
      have hrep : m.in_reply_to = some mid := by simpa using hbeq
      obtain ⟨i, hi⟩ := List.mem_iff_get.mp hm
      obtain ⟨j, _, hj⟩ := ok.2 i mid (by rw [hi]; exact hrep)
      exact hex ⟨j, hj⟩
    cases fuel with
    | zero =>
        have : h.length = 0 := by omega
        rw [this]
    | succ f =>
        cases hl : h.length with
        | zero => unfold Standard.chainFrom; rw [hnone]
        | succ n => unfold Standard.chainFrom; rw [hnone]

end Standard

/-- Witness for `get_conversation_terminates` on a concrete
two-message thread with surplus fuel. -/
theorem get_conversation_terminates_witness :
    Standard.chainFrom
        [{ message := { role := .jstr "user" }, sender := .coordinator,
           receiver := .company_agent, message_id := "1",
           timestamp := "t1" },
         { message := { role := .jstr "agent" }, sender := .company_agent,
           receiver := .coordinator, message_id := "2", timestamp := "t2",
           in_reply_to := some "1" }] "1" 7 =
      Standard.chainFrom
        [{ message := { role := .jstr "user" }, sender := .coordinator,
           receiver := .company_agent, message_id := "1",
           timestamp := "t1" },
         { message := { role := .jstr "agent" }, sender := .company_agent,
           receiver := .coordinator, message_id := "2", timestamp := "t2",
           in_reply_to := some "1" }] "1" 2 := by
  refine Standard.get_conversation_terminates _ ⟨by decide, ?_⟩ "1" 7
    (by decide)
  intro i rid hrep
  fin_cases i
  · simp at hrep
  · refine ⟨⟨0, by decide⟩, by decide, ?_⟩
    simp at hrep
    simp [hrep.symm]

-- ===========================================================================
-- Task lifecycle (C6, C7)
-- ===========================================================================

/-- C6: a newly created Task starts in state `submitted` with empty
history and artifacts; `update_status` replaces `status` (fresh
timestamp) but leaves `history`, `artifacts`, `id`, `session_id` and
`metadata` unchanged — in particular `update_status(completed)`
followed by `get_context()` still returns all prior messages; and
`add_message` appends one history entry and `add_artifact` one
artifact entry, neither changing `status`. -/
theorem task_lifecycle_frame :
    (∀ (id sid : String) (meta : JVal) (now : String),
      (TaskCtx.mkTask id sid meta now).status =
        { state := .submitted, message := none, timestamp := now } ∧
      (TaskCtx.mkTask id sid meta now).history = [] ∧
      (TaskCtx.mkTask id sid meta now).artifacts = []) ∧
    (∀ (t : TaskCtx.Task) (s : TaskCtx.TaskState)
       (msg : Option Standard.A2AMessage) (now : String),
      (t.update_status s msg now).status =
        { state := s, message := msg, timestamp := now } ∧
      (t.update_status s msg now).history = t.history ∧
      (t.update_status s msg now).artifacts = t.artifacts ∧
      (t.update_status s msg now).id = t.id ∧
      (t.update_status s msg now).session_id = t.session_id ∧
      (t.update_status s msg now).metadata = t.metadata ∧
      (t.update_status .completed msg now).get_context none = t.history) ∧
    (∀ (t : TaskCtx.Task) (m : Standard.A2AMessage),
      (t.add_message m).history = t.history ++ [m] ∧
      (t.add_message m).status = t.status) ∧
    (∀ (t : TaskCtx.Task) (a : JVal),
      (t.add_artifact a).artifacts = t.artifacts ++ [a] ∧
      (t.add_artifact a).status = t.status) :=
  ⟨fun _ _ _ _ => ⟨rfl, rfl, rfl⟩,
   fun _ _ _ _ => ⟨rfl, rfl, rfl, rfl, rfl, rfl, rfl⟩,
   fun _ _ => ⟨rfl, rfl⟩,
   fun _ _ => ⟨rfl, rfl⟩⟩

/-- C7: the claim as stated is false at `max = 0` — `if
max_messages:` is a Python truthiness test, so `get_context(0)` on a
task with one history entry returns that entry (the whole history),
not the most recent zero entries (`[]`). -/
theorem get_context_zero_counterexample :
    TaskCtx.Task.get_context
        { id := "t1", session_id := "s1",
          status := { state := .submitted, timestamp := "t" },
          history := [{ role := .jstr "user" }], artifacts := [],
          metadata := .jobjNil } (some 0) =
      [{ role := .jstr "user" }] ∧
    ([{ role := .jstr "user" }] : List Standard.A2AMessage) ≠ [] :=
  ⟨rfl, by decide⟩

/-- C7 (amended): `get_context(max)` returns the trailing entries of
history in order — all of them when `max` is unspecified *or zero*
(both are falsy); for `max ≥ 1` it returns the unique history suffix
of length `min max (history length)`, hence all entries whenever
`max` exceeds the history length.  (Both branches of the source
allocate a fresh list — slicing or `.copy()` — so the caller cannot
mutate task history through the result.) -/
theorem get_context_truncation_amended (t : TaskCtx.Task) (n : ℕ) :
    t.get_context none = t.history ∧
    t.get_context (some 0) = t.history ∧
    (1 ≤ n → (t.get_context (some n)).length = min n t.history.length ∧
      (t.get_context (some n)) <:+ t.history) ∧
    (t.history.length ≤ n → t.get_context (some n) = t.history) := by
  refine ⟨rfl, rfl, ?_, ?_⟩
  · intro hn
    constructor
    · simp only [TaskCtx.Task.get_context]
      split
      · simp only [List.length_drop]
        omega
      · rename_i hcond
        simp at hcond
        omega
    · simp only [TaskCtx.Task.get_context]
      split
      · exact List.drop_suffix _ _
      · exact List.suffix_refl _
  · intro hle
    simp only [TaskCtx.Task.get_context]
    split
    · have : t.history.length - n = 0 := by omega
      rw [this, List.drop_zero]
    · rfl

/-- Witness for `get_context_truncation_amended` at a two-message
task and `max = 1`. -/
theorem get_context_truncation_amended_witness :
    (TaskCtx.Task.get_context
        { id := "t1", session_id := "s1",
          status := { state := .submitted, timestamp := "t" },
          history := [{ role := .jstr "user" }, { role := .jstr "agent" }],
          artifacts := [], metadata := .jobjNil } (some 1)).length =
      min 1 ([{ role := .jstr "user" },
              { role := .jstr "agent" }] : List Standard.A2AMessage).length ∧
    TaskCtx.Task.get_context
        { id := "t1", session_id := "s1",
          status := { state := .submitted, timestamp := "t" },
          history := [{ role := .jstr "user" }, { role := .jstr "agent" }],
          artifacts := [], metadata := .jobjNil } (some 1) <:+
      [{ role := .jstr "user" }, { role := .jstr "agent" }] :=
  (get_context_truncation_amended
    { id := "t1", session_id := "s1",
      status := { state := .submitted, timestamp := "t" },
      history := [{ role := .jstr "user" }, { role := .jstr "agent" }],
      artifacts := [], metadata := .jobjNil } 1).2.2.1 (by decide)

-- ===========================================================================
-- Session aggregation (C8)
-- ===========================================================================

/-- C8: `get_session_context(session_id, max)` equals `get_context`
applied to a task whose history is the concatenation of the session's
task histories in the order `get_session_tasks` yields them (so the
trailing-`max` truncation, truthiness quirk included, is exactly
`get_context`'s); and concretely, two tasks created with the same
explicit session id and given two messages each yield all four
messages in task-creation order. -/
theorem session_context_aggregation :
    (∀ (mgr : TaskCtx.TaskManager) (sid : String) (mx : Option ℕ),
      mgr.get_session_context sid mx =
        TaskCtx.Task.get_context
          { id := "", session_id := sid,
            status := { state := .submitted, timestamp := "" },
            history := (mgr.get_session_tasks sid).foldl
              (fun acc t => acc ++ t.history) [],
            artifacts := [], metadata := .jobjNil } mx) ∧
    (((((((TaskCtx.TaskManager.empty.create_task "t1" (some "s") "g1" none
            "n1").1.create_task "t2" (some "s") "g2" none
            "n2").1.addMessageTo "t1"
            { role := .jstr "user", metadata := jobjOf [("i", .jint 1)] }
          ).addMessageTo "t1"
            { role := .jstr "agent", metadata := jobjOf [("i", .jint 2)] }
          ).addMessageTo "t2"
            { role := .jstr "user", metadata := jobjOf [("i", .jint 3)] }
          ).addMessageTo "t2"
            { role := .jstr "agent", metadata := jobjOf [("i", .jint 4)] }
          ).get_session_context "s" none) =
      [{ role := .jstr "user", metadata := jobjOf [("i", .jint 1)] },
       { role := .jstr "agent", metadata := jobjOf [("i", .jint 2)] },
       { role := .jstr "user", metadata := jobjOf [("i", .jint 3)] },
       { role := .jstr "agent", metadata := jobjOf [("i", .jint 4)] }] := by
  constructor
  · intro mgr sid mx
    cases mx <;> rfl
  · rfl

-- ===========================================================================
-- TaskManager indexing invariant (C10)
-- ===========================================================================

theorem alookup_eq_none_iff {α : Type} (l : List (String × α)) (k : String) :
    alookup l k = none ↔ k ∉ l.map Prod.fst := by
  induction l with
  | nil => simp [alookup]
  | cons p tl ih =>
      obtain ⟨k0, v0⟩ := p
      by_cases hk : k0 = k
      · subst hk
        simp [alookup]
      · simp only [alookup, if_neg hk, List.map_cons, List.mem_cons, ih]
        constructor
        · rintro h (h1 | h2)
          · exact hk h1.symm
          · exact h h2
        · intro h h2
          exact h (Or.inr h2)

theorem alookup_append {α : Type} (l1 l2 : List (String × α)) (k : String) :
    alookup (l1 ++ l2) k =
      match alookup l1 k with
      | some v => some v
      | none => alookup l2 k := by
  induction l1 with
  | nil => simp [alookup]
  | cons p tl ih =>
      obtain ⟨k0, v0⟩ := p
      by_cases hk : k0 = k <;> simp [alookup, hk, ih]

theorem pyDictSet_fresh {α : Type} (l : List (String × α)) (k : String)
    (v : α) (h : alookup l k = none) : pyDictSet l k v = l ++ [(k, v)] := by
  induction l with
  | nil => rfl
  | cons p tl ih =>
      obtain ⟨k0, v0⟩ := p
      by_cases hk : k0 = k
      · simp [alookup, hk] at h
      · simp only [alookup, if_neg hk] at h
        simp [pyDictSet, hk, ih h]

theorem alookup_pyDictUpdate {α : Type} (l : List (String × α))
    (k k' : String) (f : α → α) :
    alookup (pyDictUpdate l k f) k' =
      if k' = k then (alookup l k).map f else alookup l k' := by
  induction l with
  | nil => simp [alookup, pyDictUpdate]
  | cons p tl ih =>
      obtain ⟨k0, v0⟩ := p
      by_cases hk : k0 = k
      · subst hk
        by_cases hk' : k0 = k'
        · subst hk'
          simp [pyDictUpdate, alookup]
        · have h2 : ¬(k' = k0) := fun h => hk' h.symm
          simp [pyDictUpdate, alookup, hk', h2]
      · by_cases hk' : k0 = k'
        · subst hk'
          have h2 : ¬(k0 = k) := hk
          simp [pyDictUpdate, alookup, h2]
        · have h2 : ¬(k' = k0) := fun h => hk' h.symm
          simp [pyDictUpdate, alookup, hk, hk', ih]

theorem pyDictUpdate_keys {α : Type} (l : List (String × α)) (k : String)
    (f : α → α) :
    (pyDictUpdate l k f).map Prod.fst = l.map Prod.fst := by
  induction l with
  | nil => rfl
  | cons p tl ih =>
      obtain ⟨k0, v0⟩ := p
      by_cases hk : k0 = k <;> simp [pyDictUpdate, hk, ih]

namespace TaskCtx

/-- Replay a sequence of `create_task` calls (generated uuids made
explicit: each request carries the fresh task id and the effective
session id). -/
def runCreates : TaskManager → List (String × String) → TaskManager
  | mgr, [] => mgr
  | mgr, (tid, sid) :: rest =>
      runCreates (mgr.create_task tid (some sid) "" none "t0").1 rest

/-- The indexing invariant `create_task` maintains. -/
def MInv (mgr : TaskManager) : Prop :=
  (mgr.tasks.map Prod.fst).Nodup ∧
  (∀ p ∈ mgr.tasks, p.2.id = p.1) ∧
  (mgr.sessions.map Prod.fst).Nodup ∧
  (∀ sid ids, alookup mgr.sessions sid = some ids →
    ∀ tid ∈ ids, ∃ t, alookup mgr.tasks tid = some t ∧
      t.session_id = sid) ∧
  (∀ x, ((mgr.sessions.map Prod.snd).flatten).count x =
    if x ∈ mgr.tasks.map Prod.fst then 1 else 0) ∧
  (∀ sid, mgr.get_session_tasks sid =
    (mgr.tasks.map Prod.snd).filter (fun t => t.session_id == sid)) ∧
  (∀ sid, alookup mgr.sessions sid = none →
    ∀ p ∈ mgr.tasks, p.2.session_id ≠ sid)

theorem MInv_empty : MInv TaskManager.empty := by
  refine ⟨by simp [TaskManager.empty], by simp [TaskManager.empty],
    by simp [TaskManager.empty], ?_, ?_, ?_, ?_⟩
  · intro sid ids h; simp [alookup, TaskManager.empty] at h
  · intro x; simp [TaskManager.empty]
  · intro sid; rfl
  · intro sid _ p hp; simp [TaskManager.empty] at hp

/-- Appending a new task id to the (existing) session `sid` adds one
occurrence of that id to the multiset of all session task-id
lists. -/
theorem flatten_count_update (sessions : List (String × List String))
    (sid tid x : String) (hs : (alookup sessions sid).isSome = true) :
    (((pyDictUpdate sessions sid (fun ids => ids ++ [tid])).map
        Prod.snd).flatten).count x =
      (((sessions.map Prod.snd).flatten).count x) +
        (if x = tid then 1 else 0) := by
  induction sessions with
  | nil => simp [alookup] at hs
  | cons p tl ih =>
      obtain ⟨k0, ids0⟩ := p
      by_cases hk : k0 = sid
      · subst hk
        simp [pyDictUpdate, List.count_append, List.count_singleton]
        by_cases hx : x = tid <;> simp [hx] <;> omega
      · have hs' : (alookup tl sid).isSome = true := by
          simpa [alookup, hk] using hs
        simp only [pyDictUpdate, if_neg hk, List.map_cons, List.flatten_cons,
          List.count_append, ih hs']
        omega

theorem MInv_create (mgr : TaskManager) (tid sid : String)
    (fresh now : String) (meta : Option JVal)
    (inv : MInv mgr) (hfresh : alookup mgr.tasks tid = none) :
    MInv (mgr.create_task tid (some sid) fresh meta now).1 := by
  obtain ⟨inv1, inv2, inv3, inv4, inv5, inv6, inv7⟩ := inv
  have htid_keys : tid ∉ mgr.tasks.map Prod.fst :=
    (alookup_eq_none_iff _ _).mp hfresh
  set t : Task := mkTask tid sid (meta.getD .jobjNil) now with ht
  have hts : (mgr.create_task tid (some sid) fresh meta now).1.tasks =
      mgr.tasks ++ [(tid, t)] := by
    simpa [TaskManager.create_task, mkTask, ht] using
      pyDictSet_fresh mgr.tasks tid t hfresh
  have hses : (mgr.create_task tid (some sid) fresh meta now).1.sessions =
      (if (alookup mgr.sessions sid).isSome then
        pyDictUpdate mgr.sessions sid (fun ids => ids ++ [tid])
       else mgr.sessions ++ [(sid, [tid])]) := by
    simp [TaskManager.create_task, mkTask, ht]
  have htsid : t.session_id = sid := by simp [ht, mkTask]
  have htid : t.id = tid := by simp [ht, mkTask]
  have hnew : alookup (mgr.tasks ++ [(tid, t)]) tid = some t := by
    rw [alookup_append, hfresh]
    simp [alookup]
  have hpres : ∀ tid' t', alookup mgr.tasks tid' = some t' →
      alookup (mgr.tasks ++ [(tid, t)]) tid' = some t' := by
    intro tid' t' h
    rw [alookup_append, h]
  have hcongr : ∀ sid0 ids0, alookup mgr.sessions sid0 = some ids0 →
      ids0.filterMap (alookup (mgr.tasks ++ [(tid, t)])) =
        ids0.filterMap (alookup mgr.tasks) := by
    intro sid0 ids0 h0
    apply List.filterMap_congr
    intro x hx
    obtain ⟨t', ht', _⟩ := inv4 sid0 ids0 h0 x hx
    rw [hpres x t' ht', ht']
  have hkeys' : (mgr.tasks ++ [(tid, t)]).map Prod.fst =
      mgr.tasks.map Prod.fst ++ [tid] := by simp
  rcases hlook : alookup mgr.sessions sid with _ | ids
  all_goals rw [hlook] at hses
  -- the session id is new to the manager
  · simp only [Option.isSome_none, Bool.false_eq_true, if_false] at hses
    have hsid_keys : sid ∉ mgr.sessions.map Prod.fst :=
      (alookup_eq_none_iff _ _).mp hlook
    have hfilter_nil : (mgr.tasks.map Prod.snd).filter
        (fun u => u.session_id == sid) = [] := by
      rw [List.filter_eq_nil_iff]
      intro u hu
      simp only [List.mem_map] at hu
      obtain ⟨p, hp, rfl⟩ := hu
      simpa using inv7 sid hlook p hp
    refine ⟨?_, ?_, ?_, ?_, ?_, ?_, ?_⟩
    · rw [hts, hkeys']
      exact List.Nodup.append inv1 (by simp)
        (by intro x hx hmem; simp at hmem; subst hmem; exact htid_keys hx)
    · rw [hts]
      rintro p hp
      rcases List.mem_append.mp hp with h | h
      · exact inv2 p h
      · simp at h
        subst h
        exact htid
    · rw [hses]
      simp only [List.map_append, List.map_cons, List.map_nil]
      exact List.Nodup.append inv3 (by simp)
        (by intro x hx hmem; simp at hmem; subst hmem; exact hsid_keys hx)
    · rw [hses, hts]
      intro sid' ids' hl
      rw [alookup_append] at hl
      rcases hold : alookup mgr.sessions sid' with _ | ids0 <;>
        rw [hold] at hl <;> simp only [alookup] at hl
      · split at hl
        · rename_i hsid'
          cases hl
          intro tid' htid'
          simp at htid'
          subst htid'
          exact ⟨t, hnew, by rw [htsid, hsid']⟩
        · cases hl
      · cases hl
        intro tid' htid'
        obtain ⟨t', ht', hsid'⟩ := inv4 sid' _ hold tid' htid'
        exact ⟨t', hpres tid' t' ht', hsid'⟩
    · rw [hses, hts]
      intro x
      simp only [List.map_append, List.map_cons, List.map_nil,
        List.flatten_append, List.flatten_cons, List.flatten_nil,
        List.append_nil, List.count_append, inv5 x, hkeys', List.mem_append,
        List.mem_singleton]
      by_cases hx : x = tid
      · subst hx
        simp [htid_keys, List.count_singleton]
      · by_cases hk : x ∈ mgr.tasks.map Prod.fst <;>
          simp [hk, hx, Ne.symm hx, List.count_singleton]
    · intro sid'
      simp only [TaskManager.get_session_tasks, hses, hts]
      rw [alookup_append]
      by_cases hsid' : sid = sid'
      · subst hsid'
        rw [hlook]
        simp only [alookup, if_pos rfl, Option.getD_some, List.map_append,
          List.map_cons, List.map_nil, List.filter_append]
        rw [hfilter_nil]
        simp [List.filterMap, hnew, htsid]
      · rcases hold : alookup mgr.sessions sid' with _ | ids0
        · simp only [alookup, if_neg hsid', Option.getD_none,
            List.filterMap_nil, List.map_append, List.map_cons, List.map_nil,
            List.filter_append]
          have hold_nil : (mgr.tasks.map Prod.snd).filter
              (fun u => u.session_id == sid') = [] := by
            rw [← inv6 sid']
            simp [TaskManager.get_session_tasks, hold]
          rw [hold_nil]
          have hne : ¬(t.session_id == sid') = true := by
            simp [htsid, hsid']
          simp [List.filter, hne]
        · simp only [Option.getD_some]
          rw [hcongr sid' ids0 hold]
          have hgs := inv6 sid'
          simp only [TaskManager.get_session_tasks, hold,
            Option.getD_some] at hgs
          rw [hgs]
          simp only [List.map_append, List.map_cons, List.map_nil,
            List.filter_append]
          have hne : ¬(t.session_id == sid') = true := by
            simp [htsid, hsid']
          simp [List.filter, hne]
    · rw [hses, hts]
      intro sid' hl
      rw [alookup_append] at hl
      rcases hold : alookup mgr.sessions sid' with _ | ids0
      all_goals rw [hold] at hl
      · simp only [alookup] at hl
        split at hl
        · cases hl
        · rename_i hsid'
          intro p hp
          rcases List.mem_append.mp hp with h | h
          · exact inv7 sid' hold p h
          · simp at h
            subst h
            rw [htsid]
            exact hsid'
      · cases hl
  -- the session id already exists
  · simp only [Option.isSome_some, if_true] at hses
    refine ⟨?_, ?_, ?_, ?_, ?_, ?_, ?_⟩
    · rw [hts, hkeys']
      exact List.Nodup.append inv1 (by simp)
        (by intro x hx hmem; simp at hmem; subst hmem; exact htid_keys hx)
    · rw [hts]
      rintro p hp
      rcases List.mem_append.mp hp with h | h
      · exact inv2 p h
      · simp at h
        subst h
        exact htid
    · rw [hses, pyDictUpdate_keys]
      exact inv3
    · rw [hses, hts]
      intro sid' ids' hl
      rw [alookup_pyDictUpdate] at hl
      split at hl
      · rename_i hsid'
        subst hsid'
        rw [hlook] at hl
        simp at hl
        subst hl
        intro tid' htid'
        rcases List.mem_append.mp htid' with h | h
        · obtain ⟨t', ht', hsid2⟩ := inv4 _ _ hlook tid' h
          exact ⟨t', hpres tid' t' ht', hsid2⟩
        · simp at h
          subst h
          exact ⟨t, hnew, htsid⟩
      · intro tid' htid'
        obtain ⟨t', ht', hsid'⟩ := inv4 sid' ids' hl tid' htid'
        exact ⟨t', hpres tid' t' ht', hsid'⟩
    · rw [hses, hts]
      intro x
      rw [flatten_count_update mgr.sessions sid tid x (by simp [hlook])]
      simp only [inv5 x, hkeys', List.mem_append, List.mem_singleton]
      by_cases hx : x = tid
      · subst hx
        simp [htid_keys]
      · by_cases hk : x ∈ mgr.tasks.map Prod.fst <;> simp [hk, hx]
    · intro sid'
      simp only [TaskManager.get_session_tasks, hses, hts]
      rw [alookup_pyDictUpdate]
      by_cases hsid' : sid' = sid
      · subst hsid'
        rw [hlook]
        simp only [if_pos rfl, if_true, eq_self_iff_true, Option.map_some',
          Option.getD_some, List.filterMap_append]
        rw [hcongr sid' ids hlook]
        have hgs := inv6 sid'
        simp only [TaskManager.get_session_tasks, hlook,
          Option.getD_some] at hgs
        rw [hgs]
        simp only [List.map_append, List.map_cons, List.map_nil,
          List.filter_append]
        simp [List.filterMap, hnew, htsid]
      · rw [if_neg hsid']
        rcases hold : alookup mgr.sessions sid' with _ | ids0
        · simp only [Option.getD_none, List.filterMap_nil]
          have hold_nil : (mgr.tasks.map Prod.snd).filter
              (fun u => u.session_id == sid') = [] := by
            rw [← inv6 sid']
            simp [TaskManager.get_session_tasks, hold]
          simp only [List.map_append, List.map_cons, List.map_nil,
            List.filter_append]
          rw [hold_nil]
          have : ¬(t.session_id == sid') = true := by
            simp [htsid]
            exact fun h => hsid' h.symm
          simp [List.filter, this]
        · simp only [Option.getD_some]
          rw [hcongr sid' ids0 hold]
          have hgs := inv6 sid'
          simp only [TaskManager.get_session_tasks, hold,
            Option.getD_some] at hgs
          rw [hgs]
          simp only [List.map_append, List.map_cons, List.map_nil,
            List.filter_append]
          have : ¬(t.session_id == sid') = true := by
            simp [htsid]
            exact fun h => hsid' h.symm
          simp [List.filter, this]
    · rw [hses, hts]
      intro sid' hl
      rw [alookup_pyDictUpdate] at hl
      split at hl
      · rename_i hsid'
        subst hsid'
        rw [hlook] at hl
        cases hl
      · rename_i hsid'
        intro p hp
        rcases List.mem_append.mp hp with h | h
        · exact inv7 sid' hl p h
        · simp at h
          subst h
          rw [htsid]
          intro h
          subst h
          rw [hlook] at hl
          exact hsid' rfl

theorem create_task_keys (mgr : TaskManager) (tid sid fresh now : String)
    (meta : Option JVal) (hfresh : alookup mgr.tasks tid = none) :
    (mgr.create_task tid (some sid) fresh meta now).1.tasks.map Prod.fst =
      mgr.tasks.map Prod.fst ++ [tid] := by
  simp [TaskManager.create_task, mkTask, pyDictSet_fresh _ _ _ hfresh]

theorem runCreates_inv (reqs : List (String × String)) :
    ∀ mgr, MInv mgr → (reqs.map Prod.fst).Nodup →
      (∀ r ∈ reqs, r.1 ∉ mgr.tasks.map Prod.fst) →
      MInv (runCreates mgr reqs) := by
  induction reqs with
  | nil => intro mgr inv _ _; exact inv
  | cons r rest ih =>
      obtain ⟨tid, sid⟩ := r
      intro mgr inv hnd hfr
      have hfresh : alookup mgr.tasks tid = none :=
        (alookup_eq_none_iff _ _).mpr (hfr (tid, sid) (by simp))
      have hnd2 : (tid :: rest.map Prod.fst).Nodup := by
        simpa only [List.map_cons] using hnd
      have hnd' := List.nodup_cons.mp hnd2
      simp only [runCreates]
      refine ih _ (MInv_create mgr tid sid "" "t0" none inv hfresh)
        hnd'.2 ?_
      intro r' hr'
      rw [create_task_keys mgr tid sid "" "t0" none hfresh]
      intro hmem
      rcases List.mem_append.mp hmem with h | h
      · exact hfr r' (by simp [hr']) h
      · simp at h
        exact hnd'.1 (h ▸ List.mem_map_of_mem Prod.fst hr')

end TaskCtx

/-- C10: after any sequence of `create_task` calls (fresh task ids)
on a new manager, every task id appearing in any session's task-id
list is a key of the task map whose stored task carries exactly that
session id; each stored task id occurs exactly once across all
session lists; every id in a session list is a stored task key;
`get_session_tasks` returns the session's tasks in creation order
(the insertion-ordered task map filtered by session id); and a
session id the manager has never seen yields the empty list. -/
theorem task_manager_indexing (reqs : List (String × String))
    (mgr : TaskCtx.TaskManager)
    (hmgr : mgr = TaskCtx.runCreates TaskCtx.TaskManager.empty reqs)
    (hnodup : (reqs.map Prod.fst).Nodup) :
    (∀ sid ids, alookup mgr.sessions sid = some ids →
      ∀ tid ∈ ids, ∃ t, alookup mgr.tasks tid = some t ∧
        t.session_id = sid) ∧
    (∀ tid, tid ∈ mgr.tasks.map Prod.fst →
      ((mgr.sessions.map Prod.snd).flatten).count tid = 1) ∧
    (∀ tid, tid ∈ (mgr.sessions.map Prod.snd).flatten →
      tid ∈ mgr.tasks.map Prod.fst) ∧
    (∀ sid, mgr.get_session_tasks sid =
      (mgr.tasks.map Prod.snd).filter (fun t => t.session_id == sid)) ∧
    (∀ sid, alookup mgr.sessions sid = none →
      mgr.get_session_tasks sid = []) := by
  subst hmgr
  have inv := TaskCtx.runCreates_inv reqs TaskCtx.TaskManager.empty
    TaskCtx.MInv_empty hnodup (by simp [TaskCtx.TaskManager.empty])
  obtain ⟨_, _, _, inv4, inv5, inv6, _⟩ := inv
  refine ⟨inv4, ?_, ?_, inv6, ?_⟩
  · intro tid htid
    rw [inv5 tid, if_pos htid]
  · intro tid htid
    by_contra hmem
    have hc := inv5 tid
    rw [if_neg hmem] at hc
    have hpos := List.count_pos_iff.mpr htid
    omega
  · intro sid hnone
    simp [TaskCtx.TaskManager.get_session_tasks, hnone]

/-- Witness for `task_manager_indexing`: three tasks across two
sessions. -/
theorem task_manager_indexing_witness :
    (TaskCtx.runCreates TaskCtx.TaskManager.empty
        [("t1", "s1"), ("t2", "s1"), ("t3", "s2")]).get_session_tasks "s1" =
      (((TaskCtx.runCreates TaskCtx.TaskManager.empty
          [("t1", "s1"), ("t2", "s1"), ("t3", "s2")]).tasks.map
            Prod.snd).filter (fun t => t.session_id == "s1")) ∧
    ((((TaskCtx.runCreates TaskCtx.TaskManager.empty
        [("t1", "s1"), ("t2", "s1"), ("t3", "s2")]).sessions.map
          Prod.snd).flatten).count "t1") = 1 := by
  have h := task_manager_indexing [("t1", "s1"), ("t2", "s1"), ("t3", "s2")]
    _ rfl (by decide)
  exact ⟨h.2.2.2.1 "s1", h.2.1 "t1" (by decide)⟩
